import Mathlib

/-!
Shallow embedding of `bin/anthology/volumes.py` (the `Volume` class of the
ACL Anthology build scripts) and proofs about it.

Modelling conventions:
* Python strings are Lean `String`s, manipulated through their `List Char`
  form; character classes (`\d`, `\s`) and `re.IGNORECASE` are modelled for
  ASCII, which covers all identifier and title data the module handles.
* Python dicts are insertion-ordered association lists; `d[k] = v` updates
  an existing key in place and otherwise appends, `del d[k]` removes the key,
  a missing-key read raises `KeyError`.
* Fallible operations return `Except PyErr`; `s[i]` on an out-of-range index
  raises `IndexError`, slices like `s[:2]` truncate silently, and a reference
  to an undefined global name raises `NameError` (the module uses the name
  `log` without importing or defining it).
* The external collaborators (`data.ANTHOLOGY_URL.format`,
  `data.get_journal_title`, `VenueIndex.register`,
  `SIGIndex.get_associated_sigs`) are out of scope and are passed in as
  arbitrary functions in a `Ctx` record; `register` receives the fields of
  the partially built volume that exist at the call site.
-/

/-- Python exceptions that the embedded code can raise. -/
inductive PyErr where
  | indexError : PyErr
  | keyError : String → PyErr
  | nameError : String → PyErr
  | typeError : PyErr
deriving DecidableEq

/-- Values stored in an attribute mapping: strings, or sets of venue/SIG
codes (modelled as lists). -/
inductive Attr where
  | s : String → Attr
  | codes : List String → Attr
deriving DecidableEq

deriving instance DecidableEq for Except

/-- A Python dict with string keys: an insertion-ordered association list. -/
abbrev Dict := List (String × Attr)

/-- Python `k in d`. -/
def dictContains (d : Dict) (k : String) : Bool :=
  d.any (fun p => p.1 == k)

/-- Python `d.get(k)` semantics as an `Option` (value of the key if present). -/
def dictGet? (d : Dict) (k : String) : Option Attr :=
  (d.find? (fun p => p.1 == k)).map (fun p => p.2)

/-- Python `d[k]` read: raises `KeyError` when the key is absent. -/
def dictGetE (d : Dict) (k : String) : Except PyErr Attr :=
  match dictGet? d k with
  | some v => .ok v
  | none => .error (.keyError k)

/-- Python `d[k] = v`: overwrite in place when the key is present (keys of a
real dict are unique, so updating its first occurrence is faithful), append
at the end otherwise. -/
def dictSet : Dict → String → Attr → Dict
  | [], k, v => [(k, v)]
  | p :: d, k, v => if p.1 == k then (k, v) :: d else p :: dictSet d k v

/-- Python `del d[k]`: remove the key (callers in this module guard with
`k in d`). -/
def dictDel : Dict → String → Dict
  | [], _ => []
  | p :: d, k => if p.1 == k then dictDel d k else p :: dictDel d k

/-- Python `s[i]` character indexing: `IndexError` when out of range. -/
def pyIndex (s : String) (i : Nat) : Except PyErr Char :=
  match s.toList.drop i with
  | c :: _ => .ok c
  | [] => .error .indexError

/-- Python `s[:n]` slicing, which truncates silently. -/
def pySliceTo (s : String) (n : Nat) : String :=
  String.mk (s.toList.take n)

/-! ### The two regular-expression searches of `_set_meta_info`

`re.search(r"Volume\s*(\d+)", title, flags=re.IGNORECASE)` and
`re.search(r"(Number|Issue)\s*(\d+-?\d*)", title, flags=re.IGNORECASE)`.
`re.search` returns the match starting at the leftmost possible position;
within a position the quantifiers are greedy, and since the whitespace and
digit classes are disjoint, matching at a fixed position is deterministic. -/

/-- ASCII model of the `\s` class of Python `re`. -/
def isSpaceChar (c : Char) : Bool :=
  c == ' ' || c == '\t' || c == '\n' || c == '\x0d' || c == '\x0b' || c == '\x0c'

/-- ASCII model of the `\d` class of Python `re`. -/
def isDigitChar (c : Char) : Bool :=
  '0' ≤ c && c ≤ '9'

/-- Case-insensitive literal match: strip a (lowercase) pattern off the head
of the input, comparing characters through `Char.toLower`. -/
def stripCI : List Char → List Char → Option (List Char)
  | [], l => some l
  | _ :: _, [] => none
  | p :: ps, c :: cs => if c.toLower == p then stripCI ps cs else none

/-- Attempt to match `Volume\s*(\d+)` (case-insensitively) anchored at the
head of `l`; returns the digits captured by group 1. -/
def matchVolAt (l : List Char) : Option (List Char) :=
  match stripCI ("volume".toList) l with
  | none => none
  | some r =>
    let r2 := r.dropWhile isSpaceChar
    let ds := r2.takeWhile isDigitChar
    if ds.isEmpty then none else some ds

/-- `re.search` for the volume pattern: try each start position from the
left and return the first (leftmost) match. -/
def searchVol : List Char → Option (List Char)
  | [] => matchVolAt []
  | l@(_ :: rest) =>
    match matchVolAt l with
    | some v => some v
    | none => searchVol rest

/-- The `\s*(\d+-?\d*)` part of the issue pattern, applied after a keyword
matched: skip whitespace, take a maximal nonempty digit run, then extend the
capture greedily by a hyphen and a further maximal digit run if a hyphen
follows immediately. -/
def issDigits (r : List Char) : Option (List Char) :=
  if ((r.dropWhile isSpaceChar).takeWhile isDigitChar).isEmpty then none
  else
    match (r.dropWhile isSpaceChar).dropWhile isDigitChar with
    | [] => some ((r.dropWhile isSpaceChar).takeWhile isDigitChar)
    | c :: r4 =>
      if c == '-' then
        some ((r.dropWhile isSpaceChar).takeWhile isDigitChar
          ++ '-' :: r4.takeWhile isDigitChar)
      else
        some ((r.dropWhile isSpaceChar).takeWhile isDigitChar)

/-- Attempt to match `(Number|Issue)\s*(\d+-?\d*)` (case-insensitively)
anchored at the head of `l`; returns the string captured by group 2. -/
def matchIssAt (l : List Char) : Option (List Char) :=
  match stripCI ("number".toList) l with
  | some r => issDigits r
  | none =>
    match stripCI ("issue".toList) l with
    | some r => issDigits r
    | none => none

/-- `re.search` for the issue pattern: leftmost match. -/
def searchIss : List Char → Option (List Char)
  | [] => matchIssAt []
  | l@(_ :: rest) =>
    match matchIssAt l with
    | some v => some v
    | none => searchIss rest

/-- String-level wrapper for the volume-number search. -/
def searchVolS (s : String) : Option String :=
  (searchVol s.toList).map String.mk

/-- String-level wrapper for the issue-number search. -/
def searchIssS (s : String) : Option String :=
  (searchIss s.toList).map String.mk

/-! ### Data model -/

/-- The `Paper` collaborator, at the interface `Volume` consumes: `paper_id`,
`top_level_id`, `attrib`, a `full_id` computed by the paper itself, and the
mutable back-reference `parent_volume_id`. -/
structure Paper where
  paper_id : String
  top_level_id : String
  attrib : Dict
  full_id : String
  parent_volume_id : Option String
deriving DecidableEq

/-- The state of a constructed `Volume`. -/
structure Volume where
  front_matter_id : String
  top_level_id : String
  attrib : Dict
  content : List Paper
deriving DecidableEq

/-- The `full_id` property as a function of the two identifier fields
(`self.top_level_id[0]` raises `IndexError` on an empty id; so does
`self.front_matter_id[0]` in the non-workshop branch, while the workshop
branch uses the tolerant slice `self.front_matter_id[:2]`). -/
def volumeFullId (top fmid : String) : Except PyErr String :=
  match pyIndex top 0 with
  | .error e => .error e
  | .ok c =>
    if c == 'W' then
      .ok (top ++ "-" ++ pySliceTo fmid 2)
    else
      match pyIndex fmid 0 with
      | .error e => .error e
      | .ok d => .ok (top ++ "-" ++ String.mk [d])

/-- `Volume.full_id`. -/
def Volume.fullId (v : Volume) : Except PyErr String :=
  volumeFullId v.top_level_id v.front_matter_id

/-- `Volume.paper_ids`. -/
def Volume.paperIds (v : Volume) : List String :=
  v.content.map (fun p => p.full_id)

/-- `Volume.append(paper)`.  The source appends to `content`, then — when
`paper.parent_volume_id` is not `None` — evaluates `log.error(...)`, but the
module defines no name `log`, so that branch raises `NameError` before the
reassignment; otherwise it sets `paper.parent_volume_id = self.full_id`.
The result pairs the updated volume with the updated paper (the same object
in Python, so the stored content entry carries the new parent id). -/
def Volume.append (v : Volume) (p : Paper) : Except PyErr (Volume × Paper) :=
  match p.parent_volume_id with
  | some _ => .error (.nameError "log")
  | none =>
    match v.fullId with
    | .error e => .error e
    | .ok fid =>
      let p2 : Paper := { p with parent_volume_id := some fid }
      .ok ({ v with content := v.content ++ [p2] }, p2)

/-- External collaborators of `Volume.__init__`, modelled as arbitrary
functions: the URL template's `format`, `data.get_journal_title`,
`VenueIndex.register` (which receives the partially built volume's fields),
and `SIGIndex.get_associated_sigs`. -/
structure Ctx where
  urlFormat : String → String
  getJournalTitle : String → String → String
  register : String → String → Dict → List String
  getSigs : String → List String

/-- Construction step: rename `author` to `editor` when present (`attrib`
is already a copy of the front matter's mapping). -/
def renameAuthor (a : Dict) : Dict :=
  if dictContains a "author" then
    match dictGet? a "author" with
    | some v => dictDel (dictSet a "editor" v) "author"
    | none => a
  else a

/-- Construction step: drop the paper-scoped fields `revision`, `erratum`,
`pages` when present. -/
def dropPaperFields (a : Dict) : Dict :=
  List.foldl
    (fun a k => if dictContains a k then dictDel a k else a)
    a ["revision", "erratum", "pages"]

/-- Construction steps 5–7: set `url` (forcing `full_id`), `venues`
(via `register`, which sees the partial state) and `sigs` (queried by the
front matter's own `full_id`). -/
def setUrlVenuesSigs (ctx : Ctx) (fm : Paper) (a : Dict) : Except PyErr Dict :=
  match volumeFullId fm.top_level_id fm.paper_id with
  | .error e => .error e
  | .ok fid =>
    let a1 := dictSet a "url" (.s (ctx.urlFormat fid))
    let a2 := dictSet a1 "venues" (.codes (ctx.register fm.paper_id fm.top_level_id a1))
    let a3 := dictSet a2 "sigs" (.codes (ctx.getSigs fm.full_id))
    .ok a3

/-- `Volume._set_meta_info`: reads `attrib["title"]` (a `KeyError` when
absent, a `TypeError` if it is not a string), stores `meta_journal_title`
unconditionally, and stores `meta_volume` / `meta_issue` only when the
respective regex search succeeds. -/
def setMetaInfo (gjt : String → String → String) (top : String) (a : Dict) :
    Except PyErr Dict :=
  match dictGetE a "title" with
  | .error e => .error e
  | .ok (.codes _) => .error .typeError
  | .ok (.s title) =>
    let a1 := dictSet a "meta_journal_title" (.s (gjt top title))
    let a2 :=
      match searchVolS title with
      | some v => dictSet a1 "meta_volume" (.s v)
      | none => a1
    let a3 :=
      match searchIssS title with
      | some v => dictSet a2 "meta_issue" (.s v)
      | none => a2
    .ok a3

/-- `Volume.__init__`: the full construction sequence.  Returns the new
volume together with the (possibly re-parented) front-matter paper. -/
def mkVolume (ctx : Ctx) (fm : Paper) : Except PyErr (Volume × Paper) :=
  match setUrlVenuesSigs ctx fm (dropPaperFields (renameAuthor fm.attrib)) with
  | .error e => .error e
  | .ok a3 =>
    match setMetaInfo ctx.getJournalTitle fm.top_level_id a3 with
    | .error e => .error e
    | .ok a4 =>
      let v : Volume := ⟨fm.paper_id, fm.top_level_id, a4, []⟩
      match pyIndex fm.top_level_id 0 with
      | .error e => .error e
      | .ok c0 =>
        if c0 == 'J' || c0 == 'Q' then
          .ok (v, fm)
        else
          v.append fm

/-- `Volume.get(name, default)`. -/
def Volume.get (v : Volume) (name : String) (default : Option Attr) : Option Attr :=
  match dictGet? v.attrib name with
  | some x => some x
  | none => default

/-! ### Dictionary lemmas -/

theorem dictContains_set_self (d : Dict) (k : String) (v : Attr) :
    dictContains (dictSet d k v) k = true := by
  induction d with
  | nil => simp [dictSet, dictContains]
  | cons p d ih =>
    unfold dictSet
    by_cases hp : p.1 == k
    · simp [hp, dictContains]
    · simp only [hp, Bool.false_eq_true, if_false]
      unfold dictContains at ih ⊢
      simp [List.any_cons, ih]

theorem dictContains_set_ne (d : Dict) (k k2 : String) (v : Attr) (h : k2 ≠ k) :
    dictContains (dictSet d k v) k2 = dictContains d k2 := by
  have hk : (k == k2) = false := beq_eq_false_iff_ne.mpr (fun hh => h hh.symm)
  induction d with
  | nil => simp [dictSet, dictContains, hk]
  | cons p d ih =>
    unfold dictSet
    by_cases hp : p.1 == k
    · have hp2 : (p.1 == k2) = false := by
        rw [beq_iff_eq] at hp
        rw [hp]
        exact hk
      simp [hp, dictContains, List.any_cons, hk, hp2]
    · simp only [hp, Bool.false_eq_true, if_false]
      unfold dictContains at ih ⊢
      simp [List.any_cons, ih]

theorem dictGet?_set_self (d : Dict) (k : String) (v : Attr) :
    dictGet? (dictSet d k v) k = some v := by
  induction d with
  | nil => simp [dictSet, dictGet?, List.find?]
  | cons p d ih =>
    unfold dictSet
    by_cases hp : p.1 == k
    · simp [hp, dictGet?, List.find?]
    · simp only [hp, Bool.false_eq_true, if_false]
      unfold dictGet? at ih ⊢
      simp only [List.find?, hp, Bool.false_eq_true, if_false]
      exact ih

theorem dictGet?_set_ne (d : Dict) (k k2 : String) (v : Attr) (h : k2 ≠ k) :
    dictGet? (dictSet d k v) k2 = dictGet? d k2 := by
  have hk : (k == k2) = false := beq_eq_false_iff_ne.mpr (fun hh => h hh.symm)
  induction d with
  | nil => simp [dictSet, dictGet?, List.find?, hk]
  | cons p d ih =>
    unfold dictSet
    by_cases hp : p.1 == k
    · have hp2 : (p.1 == k2) = false := by
        rw [beq_iff_eq] at hp
        rw [hp]
        exact hk
      simp [hp, dictGet?, List.find?, hk, hp2]
    · simp only [hp, Bool.false_eq_true, if_false]
      unfold dictGet? at ih ⊢
      simp only [List.find?]
      cases hp2 : p.1 == k2
      · simpa using ih
      · simp

theorem dictContains_del (d : Dict) (k k2 : String) :
    dictContains (dictDel d k2) k = if k = k2 then false else dictContains d k := by
  induction d with
  | nil => simp [dictDel, dictContains]
  | cons p d ih =>
    unfold dictDel
    by_cases hp : p.1 == k2
    · rw [beq_iff_eq] at hp
      by_cases hk : k = k2
      · simp only [hp, beq_self_eq_true, if_true]
        rw [ih]
        simp [hk]
      · have hpk : (p.1 == k) = false :=
          beq_eq_false_iff_ne.mpr (by rw [hp]; exact fun hh => hk hh.symm)
        simp only [hp, beq_self_eq_true, if_true]
        rw [ih]
        simp [hk, dictContains, List.any_cons, hpk]
    · simp only [hp, Bool.false_eq_true, if_false]
      unfold dictContains at ih ⊢
      simp only [List.any_cons]
      rw [ih]
      by_cases hk : k = k2
      · have hpk : ¬ p.1 = k2 := by
          intro hq
          exact hp (by simp [hq])
        simp [hk, hpk]
      · simp [hk]

theorem dictGet?_del_ne (d : Dict) (k k2 : String) (h : k ≠ k2) :
    dictGet? (dictDel d k2) k = dictGet? d k := by
  induction d with
  | nil => simp [dictDel]
  | cons p d ih =>
    unfold dictDel
    by_cases hp : p.1 == k2
    · have hpk : (p.1 == k) = false := by
        rw [beq_iff_eq] at hp
        exact beq_eq_false_iff_ne.mpr (by rw [hp]; exact fun hh => h hh.symm)
      simp only [hp, if_true]
      rw [ih]
      simp [dictGet?, List.find?, hpk]
    · simp only [hp, Bool.false_eq_true, if_false]
      unfold dictGet? at ih ⊢
      simp only [List.find?]
      cases hpk : p.1 == k
      · simpa using ih
      · simp

theorem dictGet?_eq_none_of_not_contains (d : Dict) (k : String)
    (h : dictContains d k = false) : dictGet? d k = none := by
  unfold dictContains at h
  unfold dictGet?
  induction d with
  | nil => rfl
  | cons p d ih =>
    simp only [List.any_cons, Bool.or_eq_false_iff] at h
    simp only [List.find?, h.1, Bool.false_eq_true, if_false]
    exact ih h.2

theorem dictGet?_isSome_of_contains (d : Dict) (k : String)
    (h : dictContains d k = true) : ∃ v, dictGet? d k = some v := by
  unfold dictContains at h
  unfold dictGet?
  induction d with
  | nil => simp at h
  | cons p d ih =>
    simp only [List.any_cons, Bool.or_eq_true] at h
    by_cases hp : p.1 == k
    · exact ⟨p.2, by simp [List.find?, hp]⟩
    · rcases h with h | h
      · exact absurd h hp
      · rcases ih h with ⟨v, hv⟩
        exact ⟨v, by simp only [List.find?, hp, Bool.false_eq_true, if_false]; exact hv⟩

/-! ### Lemmas about Python indexing and full_id -/

theorem pyIndex_zero_cons (s : String) (c : Char) (rest : List Char)
    (h : s.toList = c :: rest) : pyIndex s 0 = .ok c := by
  unfold pyIndex
  rw [List.drop_zero, h]

theorem pyIndex_zero_nil (s : String) (h : s.toList = []) :
    pyIndex s 0 = .error .indexError := by
  unfold pyIndex
  rw [List.drop_zero, h]

theorem pyIndex_zero_of_ne_empty (s : String) (h : s ≠ "") :
    ∃ c rest, s.toList = c :: rest ∧ pyIndex s 0 = .ok c ∧
      pySliceTo s 1 = String.mk [c] := by
  obtain ⟨l⟩ := s
  cases l with
  | nil => exact absurd rfl h
  | cons c rest =>
    refine ⟨c, rest, rfl, ?_, ?_⟩
    · exact pyIndex_zero_cons _ c rest rfl
    · unfold pySliceTo
      rfl

theorem volumeFullId_w (top fmid : String) (c : Char)
    (hc : pyIndex top 0 = .ok c) (hw : c = 'W') :
    volumeFullId top fmid = .ok (top ++ "-" ++ pySliceTo fmid 2) := by
  unfold volumeFullId
  rw [hc]
  subst hw
  rfl

theorem volumeFullId_nonw (top fmid : String) (c d : Char)
    (hc : pyIndex top 0 = .ok c) (hw : c ≠ 'W')
    (hd : pyIndex fmid 0 = .ok d) :
    volumeFullId top fmid = .ok (top ++ "-" ++ String.mk [d]) := by
  unfold volumeFullId
  rw [hc]
  have hwb : (c == 'W') = false := beq_eq_false_iff_ne.mpr hw
  simp only [hwb, Bool.false_eq_true, if_false]
  rw [hd]

theorem volumeFullId_nonw_empty (top fmid : String) (c : Char)
    (hc : pyIndex top 0 = .ok c) (hw : c ≠ 'W') (hfm : fmid = "") :
    volumeFullId top fmid = .error .indexError := by
  unfold volumeFullId
  rw [hc]
  have hwb : (c == 'W') = false := beq_eq_false_iff_ne.mpr hw
  simp only [hwb, Bool.false_eq_true, if_false]
  subst hfm
  rfl

theorem volumeFullId_isOk (top fmid : String) (c : Char)
    (hc : pyIndex top 0 = .ok c) (hne : c ≠ 'W' → fmid ≠ "") :
    ∃ fid, volumeFullId top fmid = .ok fid := by
  by_cases hw : c = 'W'
  · exact ⟨_, volumeFullId_w top fmid c hc hw⟩
  · obtain ⟨d, rest, _, hd, _⟩ := pyIndex_zero_of_ne_empty fmid (hne hw)
    exact ⟨_, volumeFullId_nonw top fmid c d hc hw hd⟩

/-- C1: for every volume, when the first character of `top_level_id` is the
workshop marker `W`, `full_id` is `top_level_id ++ "-" ++` the first two
characters of `front_matter_id`; for any other first character it is
`top_level_id ++ "-" ++` only the first character of `front_matter_id`. -/
theorem full_id_per_scheme (v : Volume) (c : Char)
    (hc : pyIndex v.top_level_id 0 = .ok c)
    (hne : c ≠ 'W' → v.front_matter_id ≠ "") :
    (c = 'W' →
      v.fullId = .ok (v.top_level_id ++ "-" ++ pySliceTo v.front_matter_id 2)) ∧
    (c ≠ 'W' →
      v.fullId = .ok (v.top_level_id ++ "-" ++ pySliceTo v.front_matter_id 1)) := by
  constructor
  · intro hw
    exact volumeFullId_w _ _ c hc hw
  · intro hw
    obtain ⟨d, rest, hl, hd, hs⟩ := pyIndex_zero_of_ne_empty _ (hne hw)
    rw [hs]
    exact volumeFullId_nonw _ _ c d hc hw hd

/-- Witness for C1 at two concrete volumes, one per branch. -/
theorem full_id_per_scheme_witness :
    Volume.fullId ⟨"1000", "W15", [], []⟩ = .ok ("W15" ++ "-" ++ pySliceTo "1000" 2) ∧
    Volume.fullId ⟨"1234", "Q15", [], []⟩ = .ok ("Q15" ++ "-" ++ pySliceTo "1234" 1) := by
  constructor
  · exact (full_id_per_scheme ⟨"1000", "W15", [], []⟩ 'W' (by decide)
      (fun h => absurd rfl h)).1 rfl
  · exact (full_id_per_scheme ⟨"1234", "Q15", [], []⟩ 'Q' (by decide)
      (fun _ => by decide)).2 (by decide)

/-- C9: `full_id` indexes the first character of `top_level_id`, and, in the
non-workshop branch, the first character of `front_matter_id`; it raises
`IndexError` when `top_level_id` is empty, and when `front_matter_id` is
empty while `top_level_id` does not start with `W`, whereas the workshop
branch slices two characters and tolerates an empty `front_matter_id`. -/
theorem full_id_index_errors :
    (∀ fmid, volumeFullId "" fmid = .error .indexError) ∧
    (∀ top fmid c, pyIndex top 0 = .ok c → c ≠ 'W' → fmid = "" →
      volumeFullId top fmid = .error .indexError) ∧
    (∀ top c, pyIndex top 0 = .ok c → c = 'W' →
      volumeFullId top "" = .ok (top ++ "-")) := by
  refine ⟨fun fmid => ?_, fun top fmid c hc hw hfm =>
    volumeFullId_nonw_empty top fmid c hc hw hfm, fun top c hc hw => ?_⟩
  · unfold volumeFullId
    rw [pyIndex_zero_nil "" rfl]
  · have h2 := volumeFullId_w top "" c hc hw
    rw [h2, show pySliceTo "" 2 = "" from rfl, String.append_empty]

/-- Witness for C9 at concrete identifiers. -/
theorem full_id_index_errors_witness :
    volumeFullId "" "1000" = .error .indexError ∧
    volumeFullId "Q15" "" = .error .indexError ∧
    volumeFullId "W15" "" = .ok ("W15" ++ "-") := by
  refine ⟨full_id_index_errors.1 "1000", ?_, ?_⟩
  · exact full_id_index_errors.2.1 "Q15" "" 'Q' (by decide) (by decide) rfl
  · exact full_id_index_errors.2.2 "W15" 'W' (by decide) rfl

/-- C2: the claimed postcondition of `append` fails when the paper is
already parented: the source evaluates `log.error(...)`, but no name `log`
exists in the module, so the call raises `NameError` before reassigning
`parent_volume_id`, and never completes with the paper re-parented. -/
theorem append_already_parented_raises :
    Volume.append ⟨"1000", "W15", [], []⟩
      ⟨"2000", "W15", [], "W15-2000", some "X00-1"⟩
      = .error (.nameError "log") := rfl

/-- C3: the ownership conflict is fatal in the source: the `log.error` call
raises `NameError` (no `log` in scope), so `append` neither logs nor
proceeds to reassign `parent_volume_id` — it never returns normally. -/
theorem append_conflict_fatal :
    Volume.append ⟨"0500", "P19", [], []⟩
      ⟨"0600", "P19", [], "P19-0600", some "P19-1"⟩
      = .error (.nameError "log") ∧
    ∀ r, Volume.append ⟨"0500", "P19", [], []⟩
      ⟨"0600", "P19", [], "P19-0600", some "P19-1"⟩ ≠ .ok r := by
  have he : Volume.append (⟨"0500", "P19", [], []⟩ : Volume)
      ⟨"0600", "P19", [], "P19-0600", some "P19-1"⟩
      = .error (.nameError "log") := rfl
  refine ⟨he, fun r h => ?_⟩
  rw [he] at h
  exact Except.noConfusion h

/-! ### Lemmas about the attribute-transformation steps -/

theorem dictContains_of_get? (d : Dict) (k : String) (v : Attr)
    (h : dictGet? d k = some v) : dictContains d k = true := by
  unfold dictGet? at h
  unfold dictContains
  induction d with
  | nil => simp [List.find?] at h
  | cons p d ih =>
    simp only [List.find?] at h
    cases hp : p.1 == k
    · rw [hp] at h
      simp only [Bool.false_eq_true, if_false] at h
      simp [List.any_cons, ih h]
    · simp [List.any_cons, hp]

theorem renameAuthor_ne (a : Dict) (k : String)
    (h1 : k ≠ "editor") (h2 : k ≠ "author") :
    dictGet? (renameAuthor a) k = dictGet? a k ∧
    dictContains (renameAuthor a) k = dictContains a k := by
  unfold renameAuthor
  by_cases hc : dictContains a "author"
  · obtain ⟨v, hv⟩ := dictGet?_isSome_of_contains a "author" hc
    simp only [hc, if_true, hv]
    constructor
    · rw [dictGet?_del_ne _ _ _ h2, dictGet?_set_ne _ _ _ _ h1]
    · rw [dictContains_del, if_neg h2, dictContains_set_ne _ _ _ _ h1]
  · simp [hc]

theorem renameAuthor_author (a : Dict) (v : Attr)
    (hv : dictGet? a "author" = some v) :
    dictGet? (renameAuthor a) "editor" = some v ∧
    dictContains (renameAuthor a) "author" = false := by
  unfold renameAuthor
  have hc : dictContains a "author" = true := dictContains_of_get? a _ v hv
  simp only [hc, if_true, hv]
  constructor
  · rw [dictGet?_del_ne _ _ _ (by decide), dictGet?_set_self]
  · rw [dictContains_del, if_pos rfl]

theorem delIf_get_ne (a : Dict) (k k2 : String) (h : k ≠ k2) :
    dictGet? (if dictContains a k2 then dictDel a k2 else a) k = dictGet? a k := by
  by_cases hc : dictContains a k2
  · simp [hc, dictGet?_del_ne a k k2 h]
  · simp [hc]

theorem delIf_contains_ne (a : Dict) (k k2 : String) (h : k ≠ k2) :
    dictContains (if dictContains a k2 then dictDel a k2 else a) k
      = dictContains a k := by
  by_cases hc : dictContains a k2
  · simp [hc, dictContains_del, h]
  · simp [hc]

theorem delIf_contains_self (a : Dict) (k : String) :
    dictContains (if dictContains a k then dictDel a k else a) k = false := by
  by_cases hc : dictContains a k
  · simp [hc, dictContains_del]
  · simp only [hc, if_false]
    exact Bool.not_eq_true _ ▸ hc

theorem dropPaperFields_eq (a : Dict) :
    dropPaperFields a =
      (fun b => if dictContains b "pages" then dictDel b "pages" else b)
      ((fun b => if dictContains b "erratum" then dictDel b "erratum" else b)
       ((fun b => if dictContains b "revision" then dictDel b "revision" else b) a)) := by
  unfold dropPaperFields
  simp [List.foldl]

theorem dropPaperFields_get_ne (a : Dict) (k : String)
    (h1 : k ≠ "revision") (h2 : k ≠ "erratum") (h3 : k ≠ "pages") :
    dictGet? (dropPaperFields a) k = dictGet? a k := by
  rw [dropPaperFields_eq]
  simp only []
  rw [delIf_get_ne _ _ _ h3, delIf_get_ne _ _ _ h2, delIf_get_ne _ _ _ h1]

theorem dropPaperFields_contains_ne (a : Dict) (k : String)
    (h1 : k ≠ "revision") (h2 : k ≠ "erratum") (h3 : k ≠ "pages") :
    dictContains (dropPaperFields a) k = dictContains a k := by
  rw [dropPaperFields_eq]
  simp only []
  rw [delIf_contains_ne _ _ _ h3, delIf_contains_ne _ _ _ h2,
    delIf_contains_ne _ _ _ h1]

theorem dropPaperFields_clears (a : Dict) :
    dictContains (dropPaperFields a) "revision" = false ∧
    dictContains (dropPaperFields a) "erratum" = false ∧
    dictContains (dropPaperFields a) "pages" = false := by
  rw [dropPaperFields_eq]
  simp only []
  refine ⟨?_, ?_, delIf_contains_self _ _⟩
  · rw [delIf_contains_ne _ _ _ (by decide), delIf_contains_ne _ _ _ (by decide)]
    exact delIf_contains_self _ _
  · rw [delIf_contains_ne _ _ _ (by decide)]
    exact delIf_contains_self _ _

theorem setUrlVenuesSigs_elim (ctx : Ctx) (fm : Paper) (a b : Dict)
    (h : setUrlVenuesSigs ctx fm a = .ok b) :
    ∃ fid vcodes,
      volumeFullId fm.top_level_id fm.paper_id = .ok fid ∧
      b = dictSet (dictSet (dictSet a "url" (.s (ctx.urlFormat fid)))
            "venues" (.codes vcodes))
            "sigs" (.codes (ctx.getSigs fm.full_id)) := by
  unfold setUrlVenuesSigs at h
  cases hfid : volumeFullId fm.top_level_id fm.paper_id with
  | error e =>
    rw [hfid] at h
    exact Except.noConfusion h
  | ok fid =>
    rw [hfid] at h
    simp only [] at h
    exact ⟨fid, _, rfl, (Except.ok.injEq _ _ ▸ h).symm⟩

theorem setMetaInfo_elim (gjt : String → String → String) (top : String)
    (a b : Dict) (h : setMetaInfo gjt top a = .ok b) :
    ∃ title,
      dictGet? a "title" = some (.s title) ∧
      b = (match searchIssS title with
           | some v => dictSet
               (match searchVolS title with
                | some v2 => dictSet
                    (dictSet a "meta_journal_title" (.s (gjt top title)))
                    "meta_volume" (.s v2)
                | none => dictSet a "meta_journal_title" (.s (gjt top title)))
               "meta_issue" (.s v)
           | none =>
             match searchVolS title with
             | some v2 => dictSet
                 (dictSet a "meta_journal_title" (.s (gjt top title)))
                 "meta_volume" (.s v2)
             | none => dictSet a "meta_journal_title" (.s (gjt top title))) := by
  unfold setMetaInfo at h
  unfold dictGetE at h
  cases hg : dictGet? a "title" with
  | none =>
    rw [hg] at h
    exact Except.noConfusion h
  | some tv =>
    rw [hg] at h
    cases tv with
    | codes cs => exact Except.noConfusion h
    | s title =>
      refine ⟨title, rfl, ?_⟩
      simp only [] at h
      exact (Except.ok.injEq _ _ ▸ h).symm

theorem setMetaInfo_missing_title (gjt : String → String → String)
    (top : String) (a : Dict) (h : dictContains a "title" = false) :
    setMetaInfo gjt top a = .error (.keyError "title") := by
  unfold setMetaInfo dictGetE
  rw [dictGet?_eq_none_of_not_contains a "title" h]

theorem setUrlVenuesSigs_preserves (ctx : Ctx) (fm : Paper) (a b : Dict)
    (k : String) (h : setUrlVenuesSigs ctx fm a = .ok b)
    (h1 : k ≠ "url") (h2 : k ≠ "venues") (h3 : k ≠ "sigs") :
    dictGet? b k = dictGet? a k ∧ dictContains b k = dictContains a k := by
  obtain ⟨fid, vcodes, hfid, hb⟩ := setUrlVenuesSigs_elim ctx fm a b h
  subst hb
  constructor
  · rw [dictGet?_set_ne _ _ _ _ h3, dictGet?_set_ne _ _ _ _ h2,
      dictGet?_set_ne _ _ _ _ h1]
  · rw [dictContains_set_ne _ _ _ _ h3, dictContains_set_ne _ _ _ _ h2,
      dictContains_set_ne _ _ _ _ h1]

theorem setMetaInfo_preserves (gjt : String → String → String) (top : String)
    (a b : Dict) (k : String) (h : setMetaInfo gjt top a = .ok b)
    (h1 : k ≠ "meta_journal_title") (h2 : k ≠ "meta_volume")
    (h3 : k ≠ "meta_issue") :
    dictGet? b k = dictGet? a k ∧ dictContains b k = dictContains a k := by
  obtain ⟨title, ht, hb⟩ := setMetaInfo_elim gjt top a b h
  subst hb
  cases searchIssS title <;> cases searchVolS title <;>
    constructor <;>
      simp only [dictGet?_set_ne _ _ _ _ h1, dictGet?_set_ne _ _ _ _ h2,
        dictGet?_set_ne _ _ _ _ h3, dictContains_set_ne _ _ _ _ h1,
        dictContains_set_ne _ _ _ _ h2, dictContains_set_ne _ _ _ _ h3]

theorem mkVolume_elim (ctx : Ctx) (fm : Paper) (v : Volume) (fm2 : Paper)
    (h : mkVolume ctx fm = .ok (v, fm2)) :
    ∃ a3 a4 c0,
      setUrlVenuesSigs ctx fm (dropPaperFields (renameAuthor fm.attrib)) = .ok a3 ∧
      setMetaInfo ctx.getJournalTitle fm.top_level_id a3 = .ok a4 ∧
      pyIndex fm.top_level_id 0 = .ok c0 ∧
      v.front_matter_id = fm.paper_id ∧
      v.top_level_id = fm.top_level_id ∧
      v.attrib = a4 ∧
      (((c0 = 'J' ∨ c0 = 'Q') ∧ v.content = [] ∧ fm2 = fm) ∨
       (c0 ≠ 'J' ∧ c0 ≠ 'Q' ∧ fm.parent_volume_id = none ∧
        ∃ fid, volumeFullId fm.top_level_id fm.paper_id = .ok fid ∧
          fm2 = { fm with parent_volume_id := some fid } ∧
          v.content = [fm2])) := by
  unfold mkVolume at h
  cases h3 : setUrlVenuesSigs ctx fm (dropPaperFields (renameAuthor fm.attrib)) with
  | error e => rw [h3] at h; exact Except.noConfusion h
  | ok a3 =>
    rw [h3] at h
    simp only [] at h
    cases h4 : setMetaInfo ctx.getJournalTitle fm.top_level_id a3 with
    | error e => rw [h4] at h; exact Except.noConfusion h
    | ok a4 =>
      rw [h4] at h
      simp only [] at h
      cases hc : pyIndex fm.top_level_id 0 with
      | error e => rw [hc] at h; exact Except.noConfusion h
      | ok c0 =>
        rw [hc] at h
        simp only [] at h
        by_cases hjq : (c0 == 'J' || c0 == 'Q') = true
        · rw [if_pos hjq] at h
          obtain ⟨hv, hfm2⟩ := Prod.mk.injEq _ _ _ _ ▸ Except.ok.inj h
          refine ⟨a3, a4, c0, rfl, h4, rfl, ?_, ?_, ?_, ?_⟩
          · rw [← hv]
          · rw [← hv]
          · rw [← hv]
          · left
            refine ⟨?_, by rw [← hv], hfm2.symm⟩
            simpa [Bool.or_eq_true, beq_iff_eq] using hjq
        · rw [if_neg hjq] at h
          unfold Volume.append at h
          cases hp : fm.parent_volume_id with
          | some old => rw [hp] at h; exact Except.noConfusion h
          | none =>
            rw [hp] at h
            simp only [] at h
            cases hfid : Volume.fullId ⟨fm.paper_id, fm.top_level_id, a4, []⟩ with
            | error e => rw [hfid] at h; exact Except.noConfusion h
            | ok fid =>
              rw [hfid] at h
              simp only [] at h
              obtain ⟨hv, hfm2⟩ := Prod.mk.injEq _ _ _ _ ▸ Except.ok.inj h
              have hjq2 : ¬(c0 = 'J' ∨ c0 = 'Q') := by
                simpa [Bool.or_eq_true, beq_iff_eq] using hjq
              refine ⟨a3, a4, c0, rfl, h4, rfl, ?_, ?_, ?_, ?_⟩
              · rw [← hv]
              · rw [← hv]
              · rw [← hv]
              · right
                refine ⟨fun hh => hjq2 (Or.inl hh), fun hh => hjq2 (Or.inr hh),
                  rfl, fid, hfid, hfm2.symm, ?_⟩
                rw [← hv, ← hfm2]
                rfl

/-- C4: immediately after construction, `content` is empty when the first
character of `top_level_id` is in the front-matter-less set (`J`, `Q`);
for every other leading character, `content` holds exactly the front-matter
paper itself, appended via `append`, so its `parent_volume_id` is the
volume's `full_id`. -/
theorem content_after_construction (ctx : Ctx) (fm : Paper) (v : Volume)
    (fm2 : Paper) (c0 : Char) (h : mkVolume ctx fm = .ok (v, fm2))
    (hc : pyIndex fm.top_level_id 0 = .ok c0) :
    ((c0 = 'J' ∨ c0 = 'Q') → v.content = []) ∧
    (c0 ≠ 'J' → c0 ≠ 'Q' →
      ∃ fid, v.fullId = .ok fid ∧
        fm2 = { fm with parent_volume_id := some fid } ∧
        v.content = [fm2]) := by
  obtain ⟨a3, a4, c0b, h3, h4, hcb, hfmid, htop, hattr, hbranch⟩ :=
    mkVolume_elim ctx fm v fm2 h
  have hcc : c0b = c0 := by
    rw [hc] at hcb
    exact (Except.ok.inj hcb).symm
  subst hcc
  constructor
  · intro hjq
    rcases hbranch with ⟨_, hcont, _⟩ | ⟨hj, hq, _⟩
    · exact hcont
    · rcases hjq with hh | hh
      · exact absurd hh hj
      · exact absurd hh hq
  · intro hj hq
    rcases hbranch with ⟨hjq, _, _⟩ | ⟨_, _, _, fid, hfid, hfm2, hcont⟩
    · rcases hjq with hh | hh
      · exact absurd hh hj
      · exact absurd hh hq
    · refine ⟨fid, ?_, hfm2, hcont⟩
      unfold Volume.fullId
      rw [htop, hfmid]
      exact hfid

/-- C5: when the front matter's `attrib` has an `author` entry, the
constructed volume's `attrib` binds `editor` to that same value and no
longer contains `author`. -/
theorem author_renamed_to_editor (ctx : Ctx) (fm : Paper) (v : Volume)
    (fm2 : Paper) (aval : Attr) (h : mkVolume ctx fm = .ok (v, fm2))
    (ha : dictGet? fm.attrib "author" = some aval) :
    dictGet? v.attrib "editor" = some aval ∧
    dictContains v.attrib "author" = false := by
  obtain ⟨a3, a4, c0, h3, h4, hcb, hfmid, htop, hattr, hbranch⟩ :=
    mkVolume_elim ctx fm v fm2 h
  have hre := renameAuthor_author fm.attrib aval ha
  have hdrop1 : dictGet? (dropPaperFields (renameAuthor fm.attrib)) "editor"
      = some aval := by
    rw [dropPaperFields_get_ne _ _ (by decide) (by decide) (by decide)]
    exact hre.1
  have hdrop2 : dictContains (dropPaperFields (renameAuthor fm.attrib)) "author"
      = false := by
    rw [dropPaperFields_contains_ne _ _ (by decide) (by decide) (by decide)]
    exact hre.2
  have hu1 := setUrlVenuesSigs_preserves ctx fm _ a3 "editor" h3
    (by decide) (by decide) (by decide)
  have hu2 := setUrlVenuesSigs_preserves ctx fm _ a3 "author" h3
    (by decide) (by decide) (by decide)
  have hm1 := setMetaInfo_preserves ctx.getJournalTitle fm.top_level_id a3 a4
    "editor" h4 (by decide) (by decide) (by decide)
  have hm2 := setMetaInfo_preserves ctx.getJournalTitle fm.top_level_id a3 a4
    "author" h4 (by decide) (by decide) (by decide)
  constructor
  · rw [hattr, hm1.1, hu1.1]
    exact hdrop1
  · rw [hattr, hm2.2, hu2.2]
    exact hdrop2

/-- C6: the constructed volume's `attrib` contains none of the paper-scoped
keys `revision`, `erratum`, `pages`, whatever the front matter carried. -/
theorem paper_scoped_fields_dropped (ctx : Ctx) (fm : Paper) (v : Volume)
    (fm2 : Paper) (h : mkVolume ctx fm = .ok (v, fm2)) :
    dictContains v.attrib "revision" = false ∧
    dictContains v.attrib "erratum" = false ∧
    dictContains v.attrib "pages" = false := by
  obtain ⟨a3, a4, c0, h3, h4, hcb, hfmid, htop, hattr, hbranch⟩ :=
    mkVolume_elim ctx fm v fm2 h
  obtain ⟨hd1, hd2, hd3⟩ := dropPaperFields_clears (renameAuthor fm.attrib)
  refine ⟨?_, ?_, ?_⟩
  · rw [hattr,
      (setMetaInfo_preserves ctx.getJournalTitle fm.top_level_id a3 a4
        "revision" h4 (by decide) (by decide) (by decide)).2,
      (setUrlVenuesSigs_preserves ctx fm _ a3 "revision" h3
        (by decide) (by decide) (by decide)).2]
    exact hd1
  · rw [hattr,
      (setMetaInfo_preserves ctx.getJournalTitle fm.top_level_id a3 a4
        "erratum" h4 (by decide) (by decide) (by decide)).2,
      (setUrlVenuesSigs_preserves ctx fm _ a3 "erratum" h3
        (by decide) (by decide) (by decide)).2]
    exact hd2
  · rw [hattr,
      (setMetaInfo_preserves ctx.getJournalTitle fm.top_level_id a3 a4
        "pages" h4 (by decide) (by decide) (by decide)).2,
      (setUrlVenuesSigs_preserves ctx fm _ a3 "pages" h3
        (by decide) (by decide) (by decide)).2]
    exact hd3

/-- C8: construction works on a copy of the front matter's `attrib`; the
paper returned by construction still carries its original mapping, with any
`author`, `revision`, `erratum`, `pages` entries untouched. -/
theorem front_matter_attrib_untouched (ctx : Ctx) (fm : Paper) (v : Volume)
    (fm2 : Paper) (h : mkVolume ctx fm = .ok (v, fm2)) :
    fm2.attrib = fm.attrib ∧
    dictGet? fm2.attrib "author" = dictGet? fm.attrib "author" ∧
    dictGet? fm2.attrib "revision" = dictGet? fm.attrib "revision" ∧
    dictGet? fm2.attrib "erratum" = dictGet? fm.attrib "erratum" ∧
    dictGet? fm2.attrib "pages" = dictGet? fm.attrib "pages" := by
  obtain ⟨a3, a4, c0, h3, h4, hcb, hfmid, htop, hattr, hbranch⟩ :=
    mkVolume_elim ctx fm v fm2 h
  have he : fm2.attrib = fm.attrib := by
    rcases hbranch with ⟨_, _, hfm2⟩ | ⟨_, _, _, fid, _, hfm2, _⟩
    · rw [hfm2]
    · rw [hfm2]
  exact ⟨he, by rw [he], by rw [he], by rw [he], by rw [he]⟩

/-- C10: constructing a volume whose front matter lacks a `title` raises
`KeyError` from meta-info derivation, after `url`, `venues` and `sigs` have
been set on the working attribute mapping and before `content` exists. -/
theorem missing_title_keyerror (ctx : Ctx) (fm : Paper) (c0 : Char)
    (hc : pyIndex fm.top_level_id 0 = .ok c0)
    (hne : c0 ≠ 'W' → fm.paper_id ≠ "")
    (ht : dictContains fm.attrib "title" = false) :
    ∃ a3, setUrlVenuesSigs ctx fm (dropPaperFields (renameAuthor fm.attrib)) = .ok a3 ∧
      dictContains a3 "url" = true ∧
      dictContains a3 "venues" = true ∧
      dictContains a3 "sigs" = true ∧
      dictContains a3 "title" = false ∧
      setMetaInfo ctx.getJournalTitle fm.top_level_id a3 = .error (.keyError "title") ∧
      mkVolume ctx fm = .error (.keyError "title") := by
  obtain ⟨fid, hfid⟩ := volumeFullId_isOk fm.top_level_id fm.paper_id c0 hc hne
  obtain ⟨a3, ha3⟩ : ∃ b,
      setUrlVenuesSigs ctx fm (dropPaperFields (renameAuthor fm.attrib)) = .ok b := by
    unfold setUrlVenuesSigs
    rw [hfid]
    exact ⟨_, rfl⟩
  have htitle : dictContains a3 "title" = false := by
    rw [(setUrlVenuesSigs_preserves ctx fm _ a3 "title" ha3
        (by decide) (by decide) (by decide)).2,
      dropPaperFields_contains_ne _ _ (by decide) (by decide) (by decide),
      (renameAuthor_ne fm.attrib "title" (by decide) (by decide)).2]
    exact ht
  have hmeta := setMetaInfo_missing_title ctx.getJournalTitle fm.top_level_id a3 htitle
  obtain ⟨fid2, vcodes, hfid2, hb⟩ := setUrlVenuesSigs_elim ctx fm _ a3 ha3
  refine ⟨a3, ha3, ?_, ?_, ?_, htitle, hmeta, ?_⟩
  · subst hb
    rw [dictContains_set_ne _ _ _ _ (by decide),
      dictContains_set_ne _ _ _ _ (by decide)]
    exact dictContains_set_self _ _ _
  · subst hb
    rw [dictContains_set_ne _ _ _ _ (by decide)]
    exact dictContains_set_self _ _ _
  · subst hb
    exact dictContains_set_self _ _ _
  · unfold mkVolume
    rw [ha3]
    simp only []
    rw [hmeta]

/-! ### Concrete data used by the witnesses -/

/-- A concrete context standing in for the external collaborators. -/
def ctxW : Ctx :=
  ⟨fun fid => String.append "https://aclanthology.org/" fid,
   fun _ title => title,
   fun _ _ _ => ["ws15"],
   fun _ => ["sigsem"]⟩

/-- A concrete workshop front-matter paper. -/
def fmW : Paper :=
  ⟨"1000", "W15",
   [("title", .s "Proceedings of the Workshop, Volume 2"),
    ("author", .s "A. Editor"),
    ("pages", .s "1-10")],
   "W15-1000", none⟩

/-- The front matter of `fmW` after construction re-parents it. -/
def fmW2 : Paper :=
  ⟨"1000", "W15",
   [("title", .s "Proceedings of the Workshop, Volume 2"),
    ("author", .s "A. Editor"),
    ("pages", .s "1-10")],
   "W15-1000", some "W15-10"⟩

/-- The volume `mkVolume ctxW fmW` constructs. -/
def vW : Volume :=
  ⟨"1000", "W15",
   [("title", .s "Proceedings of the Workshop, Volume 2"),
    ("editor", .s "A. Editor"),
    ("url", .s "https://aclanthology.org/W15-10"),
    ("venues", .codes ["ws15"]),
    ("sigs", .codes ["sigsem"]),
    ("meta_journal_title", .s "Proceedings of the Workshop, Volume 2"),
    ("meta_volume", .s "2")],
   [fmW2]⟩

/-- A concrete front matter lacking a `title` entry. -/
def fmNoTitle : Paper :=
  ⟨"1000", "Q15", [("author", .s "B. Editor")], "Q15-1000", none⟩

/-- Witness for C4: `mkVolume ctxW fmW` succeeds and the conclusion holds
at that volume. -/
theorem content_after_construction_witness :
    ((('W' : Char) = 'J' ∨ ('W' : Char) = 'Q') → vW.content = []) ∧
    (('W' : Char) ≠ 'J' → ('W' : Char) ≠ 'Q' →
      ∃ fid, vW.fullId = .ok fid ∧
        fmW2 = { fmW with parent_volume_id := some fid } ∧
        vW.content = [fmW2]) :=
  content_after_construction ctxW fmW vW fmW2 'W' (by decide) (by decide)

/-- Witness for C5 at the same construction. -/
theorem author_renamed_to_editor_witness :
    dictGet? vW.attrib "editor" = some (.s "A. Editor") ∧
    dictContains vW.attrib "author" = false :=
  author_renamed_to_editor ctxW fmW vW fmW2 (.s "A. Editor") (by decide) (by decide)

/-- Witness for C6 at the same construction. -/
theorem paper_scoped_fields_dropped_witness :
    dictContains vW.attrib "revision" = false ∧
    dictContains vW.attrib "erratum" = false ∧
    dictContains vW.attrib "pages" = false :=
  paper_scoped_fields_dropped ctxW fmW vW fmW2 (by decide)

/-- Witness for C8 at the same construction. -/
theorem front_matter_attrib_untouched_witness :
    fmW2.attrib = fmW.attrib ∧
    dictGet? fmW2.attrib "author" = dictGet? fmW.attrib "author" ∧
    dictGet? fmW2.attrib "revision" = dictGet? fmW.attrib "revision" ∧
    dictGet? fmW2.attrib "erratum" = dictGet? fmW.attrib "erratum" ∧
    dictGet? fmW2.attrib "pages" = dictGet? fmW.attrib "pages" :=
  front_matter_attrib_untouched ctxW fmW vW fmW2 (by decide)

/-- Witness for C10 at a title-less front matter. -/
theorem missing_title_keyerror_witness :
    ∃ a3, setUrlVenuesSigs ctxW fmNoTitle
        (dropPaperFields (renameAuthor fmNoTitle.attrib)) = .ok a3 ∧
      dictContains a3 "url" = true ∧
      dictContains a3 "venues" = true ∧
      dictContains a3 "sigs" = true ∧
      dictContains a3 "title" = false ∧
      setMetaInfo ctxW.getJournalTitle fmNoTitle.top_level_id a3
        = .error (.keyError "title") ∧
      mkVolume ctxW fmNoTitle = .error (.keyError "title") :=
  missing_title_keyerror ctxW fmNoTitle 'Q' (by decide) (fun _ => by decide)
    (by decide)

/-! ### Declarative reading of the two search patterns

`VolumePatternIn` / `IssuePatternIn` state that the pattern occurs somewhere
in the character list; `VolumeCapture` / `IssueCapture` state that a value
is a capture of the pattern under the greedy quantifier semantics. -/

/-- Somewhere in `l`, "Volume" (case-insensitive) is followed by optional
whitespace and at least one digit. -/
def VolumePatternIn (l : List Char) : Prop :=
  ∃ pre kw ws ds post, l = pre ++ (kw ++ (ws ++ (ds ++ post))) ∧
    kw.map Char.toLower = "volume".toList ∧
    (∀ c ∈ ws, isSpaceChar c = true) ∧
    ds ≠ [] ∧ (∀ c ∈ ds, isDigitChar c = true)

/-- Somewhere in `l`, "Number" or "Issue" (case-insensitive) is followed by
optional whitespace and at least one digit. -/
def IssuePatternIn (l : List Char) : Prop :=
  ∃ pre kw ws ds post, l = pre ++ (kw ++ (ws ++ (ds ++ post))) ∧
    (kw.map Char.toLower = "number".toList ∨
     kw.map Char.toLower = "issue".toList) ∧
    (∀ c ∈ ws, isSpaceChar c = true) ∧
    ds ≠ [] ∧ (∀ c ∈ ds, isDigitChar c = true)

/-- `v` is a greedy capture of `Volume\s*(\d+)` inside `l`: a maximal
nonempty digit run following the keyword and optional whitespace. -/
def VolumeCapture (l v : List Char) : Prop :=
  ∃ pre kw ws post, l = pre ++ (kw ++ (ws ++ (v ++ post))) ∧
    kw.map Char.toLower = "volume".toList ∧
    (∀ c ∈ ws, isSpaceChar c = true) ∧
    v ≠ [] ∧ (∀ c ∈ v, isDigitChar c = true) ∧
    (∀ c rest, post = c :: rest → isDigitChar c = false)

/-- `v` is a greedy capture of group 2 of `(Number|Issue)\s*(\d+-?\d*)`
inside `l`: a maximal digit run, optionally extended by a hyphen and a
further maximal (possibly empty) digit run. -/
def IssueCapture (l v : List Char) : Prop :=
  ∃ pre kw ws ds tl post, l = pre ++ (kw ++ (ws ++ (ds ++ (tl ++ post)))) ∧
    (kw.map Char.toLower = "number".toList ∨
     kw.map Char.toLower = "issue".toList) ∧
    (∀ c ∈ ws, isSpaceChar c = true) ∧
    ds ≠ [] ∧ (∀ c ∈ ds, isDigitChar c = true) ∧
    v = ds ++ tl ∧
    ((tl = [] ∧ ∀ c rest, post = c :: rest → isDigitChar c = false ∧ c ≠ '-') ∨
     (∃ ds2, tl = '-' :: ds2 ∧ (∀ c ∈ ds2, isDigitChar c = true) ∧
       (∀ c rest, post = c :: rest → isDigitChar c = false)))

theorem digit_not_space (c : Char) (h : isDigitChar c = true) :
    isSpaceChar c = false := by
  unfold isDigitChar at h
  simp only [Bool.and_eq_true, decide_eq_true_eq] at h
  unfold isSpaceChar
  simp only [Bool.or_eq_false_iff, beq_eq_false_iff_ne]
  refine ⟨⟨⟨⟨⟨?_, ?_⟩, ?_⟩, ?_⟩, ?_⟩, ?_⟩ <;>
    (rintro rfl; exact absurd h (by decide))

theorem stripCI_append (pat kw rest : List Char)
    (h : kw.map Char.toLower = pat) : stripCI pat (kw ++ rest) = some rest := by
  induction kw generalizing pat with
  | nil =>
    subst h
    rfl
  | cons c cs ih =>
    subst h
    simp only [List.map_cons, List.cons_append, stripCI, beq_self_eq_true,
      if_true]
    exact ih _ rfl

theorem stripCI_elim (pat l rest : List Char) (h : stripCI pat l = some rest) :
    ∃ kw, l = kw ++ rest ∧ kw.map Char.toLower = pat := by
  induction pat generalizing l with
  | nil =>
    refine ⟨[], ?_, rfl⟩
    unfold stripCI at h
    rw [List.nil_append]
    exact Option.some.inj h
  | cons p ps ih =>
    cases l with
    | nil =>
      unfold stripCI at h
      exact Option.noConfusion h
    | cons c cs =>
      unfold stripCI at h
      by_cases hc : (c.toLower == p) = true
      · rw [if_pos hc] at h
        obtain ⟨kw, hkw, hmap⟩ := ih cs h
        refine ⟨c :: kw, ?_, ?_⟩
        · rw [List.cons_append, hkw]
        · simp [hmap, beq_iff_eq.mp hc]
      · rw [if_neg hc] at h
        exact Option.noConfusion h

theorem dropWhile_all_append (p : Char → Bool) (ws rest : List Char)
    (h : ∀ c ∈ ws, p c = true) :
    (ws ++ rest).dropWhile p = rest.dropWhile p := by
  induction ws with
  | nil => rfl
  | cons c cs ih =>
    rw [List.cons_append,
      List.dropWhile_cons_of_pos (h c (List.mem_cons_self c cs))]
    exact ih (fun x hx => h x (List.mem_cons_of_mem c hx))


theorem dropWhile_cons_head (p : Char → Bool) (l : List Char) (c : Char)
    (rest : List Char) (h : l.dropWhile p = c :: rest) : p c = false := by
  have hh := List.head?_dropWhile_not p l
  rw [h] at hh
  exact hh

theorem matchVolAt_strip (l r : List Char)
    (hs : stripCI ("volume".toList) l = some r) :
    matchVolAt l =
      (if ((r.dropWhile isSpaceChar).takeWhile isDigitChar).isEmpty then none
       else some ((r.dropWhile isSpaceChar).takeWhile isDigitChar)) := by
  unfold matchVolAt
  rw [hs]

theorem matchVolAt_nostrip (l : List Char)
    (hs : stripCI ("volume".toList) l = none) : matchVolAt l = none := by
  unfold matchVolAt
  rw [hs]

theorem matchVolAt_some (l v : List Char) (h : matchVolAt l = some v) :
    ∃ kw ws post, l = kw ++ (ws ++ (v ++ post)) ∧
      kw.map Char.toLower = "volume".toList ∧
      (∀ c ∈ ws, isSpaceChar c = true) ∧
      v ≠ [] ∧ (∀ c ∈ v, isDigitChar c = true) ∧
      (∀ c rest, post = c :: rest → isDigitChar c = false) := by
  cases hs : stripCI ("volume".toList) l with
  | none => rw [matchVolAt_nostrip l hs] at h; exact Option.noConfusion h
  | some r =>
    rw [matchVolAt_strip l r hs] at h
    by_cases he : (((r.dropWhile isSpaceChar).takeWhile isDigitChar).isEmpty) = true
    · rw [if_pos he] at h
      exact Option.noConfusion h
    · rw [if_neg he] at h
      have hv : v = (r.dropWhile isSpaceChar).takeWhile isDigitChar :=
        (Option.some.inj h).symm
      obtain ⟨kw, hl, hkw⟩ := stripCI_elim _ l r hs
      refine ⟨kw, r.takeWhile isSpaceChar,
        (r.dropWhile isSpaceChar).dropWhile isDigitChar, ?_, hkw, ?_, ?_, ?_, ?_⟩
      · rw [hl]
        congr 1
        conv_lhs => rw [← List.takeWhile_append_dropWhile isSpaceChar r]
        congr 1
        conv_lhs =>
          rw [← List.takeWhile_append_dropWhile isDigitChar
            (r.dropWhile isSpaceChar)]
        rw [hv]
      · exact fun c hc => List.mem_takeWhile_imp hc
      · rw [hv]
        intro hh
        apply he
        rw [hh]
        rfl
      · intro c hc
        rw [hv] at hc
        exact List.mem_takeWhile_imp hc
      · intro c rest hpost
        exact dropWhile_cons_head _ _ c rest hpost

theorem matchVolAt_parts (kw ws ds post : List Char)
    (hkw : kw.map Char.toLower = "volume".toList)
    (hws : ∀ c ∈ ws, isSpaceChar c = true)
    (hds : ds ≠ []) (hd : ∀ c ∈ ds, isDigitChar c = true) :
    (matchVolAt (kw ++ (ws ++ (ds ++ post)))).isSome = true := by
  rw [matchVolAt_strip _ _ (stripCI_append _ kw _ hkw)]
  cases ds with
  | nil => exact absurd rfl hds
  | cons d ds2 =>
    have hnd : isSpaceChar d = false :=
      digit_not_space d (hd d (List.mem_cons_self d ds2))
    have h1 : ((ws ++ ((d :: ds2) ++ post)).dropWhile isSpaceChar)
        = d :: (ds2 ++ post) := by
      rw [dropWhile_all_append _ _ _ hws, List.cons_append]
      exact List.dropWhile_cons_of_neg (by rw [hnd]; exact Bool.false_ne_true)
    rw [h1, List.takeWhile_cons_of_pos (hd d (List.mem_cons_self d ds2))]
    rw [if_neg (by simp [List.isEmpty])]
    rfl

theorem searchVol_some_elim (l v : List Char) (h : searchVol l = some v) :
    ∃ i, matchVolAt (l.drop i) = some v := by
  induction l with
  | nil =>
    refine ⟨0, ?_⟩
    rw [List.drop_zero]
    unfold searchVol at h
    exact h
  | cons c cs ih =>
    unfold searchVol at h
    cases hm : matchVolAt (c :: cs) with
    | some w =>
      rw [hm] at h
      refine ⟨0, ?_⟩
      rw [List.drop_zero, hm]
      exact h
    | none =>
      rw [hm] at h
      obtain ⟨i, hi⟩ := ih h
      exact ⟨i + 1, hi⟩

theorem searchVol_isSome_of (l : List Char) (i : Nat)
    (h : (matchVolAt (l.drop i)).isSome = true) :
    (searchVol l).isSome = true := by
  induction l generalizing i with
  | nil =>
    unfold searchVol
    rw [List.drop_nil] at h
    exact h
  | cons c cs ih =>
    unfold searchVol
    cases hm : matchVolAt (c :: cs) with
    | some w => rfl
    | none =>
      cases i with
      | zero =>
        rw [List.drop_zero, hm] at h
        exact absurd h (by decide)
      | succ j =>
        exact ih j h

theorem searchVol_capture (l v : List Char) (h : searchVol l = some v) :
    VolumeCapture l v := by
  obtain ⟨i, hm⟩ := searchVol_some_elim l v h
  obtain ⟨kw, ws, post, hdec, hkw, hws, hne, hdig, hpost⟩ :=
    matchVolAt_some _ v hm
  refine ⟨l.take i, kw, ws, post, ?_, hkw, hws, hne, hdig, hpost⟩
  conv_lhs => rw [← List.take_append_drop i l]
  rw [hdec]

theorem volumePattern_of_capture (l v : List Char) (h : VolumeCapture l v) :
    VolumePatternIn l := by
  obtain ⟨pre, kw, ws, post, hdec, hkw, hws, hne, hdig, _⟩ := h
  exact ⟨pre, kw, ws, v, post, hdec, hkw, hws, hne, hdig⟩

theorem searchVol_of_pattern (l : List Char) (h : VolumePatternIn l) :
    (searchVol l).isSome = true := by
  obtain ⟨pre, kw, ws, ds, post, hdec, hkw, hws, hne, hdig⟩ := h
  apply searchVol_isSome_of l pre.length
  rw [hdec, List.drop_left]
  exact matchVolAt_parts kw ws ds post hkw hws hne hdig

theorem matchIssAt_some (l v : List Char) (h : matchIssAt l = some v) :
    ∃ kw rest, l = kw ++ rest ∧
      (kw.map Char.toLower = "number".toList ∨
       kw.map Char.toLower = "issue".toList) ∧
      issDigits rest = some v := by
  unfold matchIssAt at h
  cases hn : stripCI ("number".toList) l with
  | some r =>
    rw [hn] at h
    obtain ⟨kw, hl, hm⟩ := stripCI_elim _ l r hn
    exact ⟨kw, r, hl, Or.inl hm, h⟩
  | none =>
    rw [hn] at h
    cases hi : stripCI ("issue".toList) l with
    | some r =>
      rw [hi] at h
      obtain ⟨kw, hl, hm⟩ := stripCI_elim _ l r hi
      exact ⟨kw, r, hl, Or.inr hm, h⟩
    | none =>
      rw [hi] at h
      exact Option.noConfusion h

theorem issDigits_some (r v : List Char) (h : issDigits r = some v) :
    ∃ ws ds tl post, r = ws ++ (ds ++ (tl ++ post)) ∧
      (∀ c ∈ ws, isSpaceChar c = true) ∧
      ds ≠ [] ∧ (∀ c ∈ ds, isDigitChar c = true) ∧
      v = ds ++ tl ∧
      ((tl = [] ∧ ∀ c rest, post = c :: rest → isDigitChar c = false ∧ c ≠ '-') ∨
       (∃ ds2, tl = '-' :: ds2 ∧ (∀ c ∈ ds2, isDigitChar c = true) ∧
         (∀ c rest, post = c :: rest → isDigitChar c = false))) := by
  unfold issDigits at h
  by_cases he : (((r.dropWhile isSpaceChar).takeWhile isDigitChar).isEmpty) = true
  · rw [if_pos he] at h
    exact Option.noConfusion h
  · rw [if_neg he] at h
    have hsplit : r = r.takeWhile isSpaceChar ++
        ((r.dropWhile isSpaceChar).takeWhile isDigitChar ++
          (r.dropWhile isSpaceChar).dropWhile isDigitChar) := by
      conv_lhs => rw [← List.takeWhile_append_dropWhile isSpaceChar r]
      congr 1
      conv_lhs =>
        rw [← List.takeWhile_append_dropWhile isDigitChar
          (r.dropWhile isSpaceChar)]
    have hwsp : ∀ c ∈ r.takeWhile isSpaceChar, isSpaceChar c = true :=
      fun c hc => List.mem_takeWhile_imp hc
    have hdsne : (r.dropWhile isSpaceChar).takeWhile isDigitChar ≠ [] := by
      intro hh
      apply he
      rw [hh]
      rfl
    have hdsdig : ∀ c ∈ (r.dropWhile isSpaceChar).takeWhile isDigitChar,
        isDigitChar c = true := fun c hc => List.mem_takeWhile_imp hc
    cases hr3 : (r.dropWhile isSpaceChar).dropWhile isDigitChar with
    | nil =>
      rw [hr3] at h hsplit
      simp only [] at h
      refine ⟨r.takeWhile isSpaceChar,
        (r.dropWhile isSpaceChar).takeWhile isDigitChar, [], [],
        ?_, hwsp, hdsne, hdsdig, ?_, Or.inl ⟨rfl, ?_⟩⟩
      · rw [List.append_nil] at hsplit
        rw [List.nil_append, List.append_nil]
        exact hsplit
      · rw [List.append_nil]
        exact (Option.some.inj h).symm
      · intro c rest hpost
        exact List.noConfusion hpost
    | cons c r4 =>
      rw [hr3] at h hsplit
      simp only [] at h
      by_cases hc : (c == '-') = true
      · rw [if_pos hc] at h
        have hceq : c = '-' := beq_iff_eq.mp hc
        subst hceq
        refine ⟨r.takeWhile isSpaceChar,
          (r.dropWhile isSpaceChar).takeWhile isDigitChar,
          '-' :: r4.takeWhile isDigitChar, r4.dropWhile isDigitChar,
          ?_, hwsp, hdsne, hdsdig, (Option.some.inj h).symm,
          Or.inr ⟨r4.takeWhile isDigitChar, rfl,
            fun d hd => List.mem_takeWhile_imp hd,
            fun d rest hpost => dropWhile_cons_head _ _ d rest hpost⟩⟩
        have hr4 : ('-' :: r4.takeWhile isDigitChar) ++ r4.dropWhile isDigitChar
            = '-' :: r4 := by
          rw [List.cons_append, List.takeWhile_append_dropWhile]
        rw [hr4]
        exact hsplit
      · rw [if_neg hc] at h
        refine ⟨r.takeWhile isSpaceChar,
          (r.dropWhile isSpaceChar).takeWhile isDigitChar, [], c :: r4,
          ?_, hwsp, hdsne, hdsdig, ?_, Or.inl ⟨rfl, ?_⟩⟩
        · rw [List.nil_append]
          exact hsplit
        · rw [List.append_nil]
          exact (Option.some.inj h).symm
        · intro d rest hpost
          obtain ⟨hd1, hd2⟩ := List.cons.inj hpost
          subst hd1
          constructor
          · exact dropWhile_cons_head _ _ c r4 hr3
          · intro hh
            subst hh
            exact hc (by decide)

theorem issDigits_isSome (r : List Char)
    (hne : ((r.dropWhile isSpaceChar).takeWhile isDigitChar).isEmpty = false) :
    (issDigits r).isSome = true := by
  unfold issDigits
  rw [if_neg (by rw [hne]; exact Bool.false_ne_true)]
  split
  · rfl
  · split
    · rfl
    · rfl

theorem stripCI_number_of_issue (kw rest : List Char)
    (h : kw.map Char.toLower = "issue".toList) :
    stripCI ("number".toList) (kw ++ rest) = none := by
  cases kw with
  | nil => exact absurd h (by decide)
  | cons c cs =>
    have hc : c.toLower = 'i' := by
      have hh := congrArg (fun l => l.head?) h
      simpa using hh
    have hn : ("number".toList : List Char) = 'n' :: "umber".toList := rfl
    rw [hn, List.cons_append]
    unfold stripCI
    rw [hc]
    rw [if_neg (by decide)]

theorem matchIssAt_parts (kw ws ds post : List Char)
    (hkw : kw.map Char.toLower = "number".toList ∨
      kw.map Char.toLower = "issue".toList)
    (hws : ∀ c ∈ ws, isSpaceChar c = true)
    (hds : ds ≠ []) (hd : ∀ c ∈ ds, isDigitChar c = true) :
    (matchIssAt (kw ++ (ws ++ (ds ++ post)))).isSome = true := by
  have hne : (((ws ++ (ds ++ post)).dropWhile isSpaceChar).takeWhile
      isDigitChar).isEmpty = false := by
    cases ds with
    | nil => exact absurd rfl hds
    | cons d ds2 =>
      have hnd : isSpaceChar d = false :=
        digit_not_space d (hd d (List.mem_cons_self d ds2))
      have h1 : ((ws ++ ((d :: ds2) ++ post)).dropWhile isSpaceChar)
          = d :: (ds2 ++ post) := by
        rw [dropWhile_all_append _ _ _ hws, List.cons_append]
        exact List.dropWhile_cons_of_neg (by rw [hnd]; exact Bool.false_ne_true)
      rw [h1, List.takeWhile_cons_of_pos (hd d (List.mem_cons_self d ds2))]
      rfl
  rcases hkw with hkw | hkw
  · unfold matchIssAt
    rw [stripCI_append _ kw _ hkw]
    exact issDigits_isSome _ hne
  · unfold matchIssAt
    rw [stripCI_number_of_issue kw _ hkw, stripCI_append _ kw _ hkw]
    exact issDigits_isSome _ hne

theorem searchIss_some_elim (l v : List Char) (h : searchIss l = some v) :
    ∃ i, matchIssAt (l.drop i) = some v := by
  induction l with
  | nil =>
    refine ⟨0, ?_⟩
    rw [List.drop_zero]
    unfold searchIss at h
    exact h
  | cons c cs ih =>
    unfold searchIss at h
    cases hm : matchIssAt (c :: cs) with
    | some w =>
      rw [hm] at h
      refine ⟨0, ?_⟩
      rw [List.drop_zero, hm]
      exact h
    | none =>
      rw [hm] at h
      obtain ⟨i, hi⟩ := ih h
      exact ⟨i + 1, hi⟩

theorem searchIss_isSome_of (l : List Char) (i : Nat)
    (h : (matchIssAt (l.drop i)).isSome = true) :
    (searchIss l).isSome = true := by
  induction l generalizing i with
  | nil =>
    unfold searchIss
    rw [List.drop_nil] at h
    exact h
  | cons c cs ih =>
    unfold searchIss
    cases hm : matchIssAt (c :: cs) with
    | some w => rfl
    | none =>
      cases i with
      | zero =>
        rw [List.drop_zero, hm] at h
        exact absurd h (by decide)
      | succ j =>
        exact ih j h

theorem searchIss_capture (l v : List Char) (h : searchIss l = some v) :
    IssueCapture l v := by
  obtain ⟨i, hm⟩ := searchIss_some_elim l v h
  obtain ⟨kw, rest, hdec, hkw, hdg⟩ := matchIssAt_some _ v hm
  obtain ⟨ws, ds, tl, post, hrest, hws, hds, hdig, hv, hcase⟩ :=
    issDigits_some rest v hdg
  refine ⟨l.take i, kw, ws, ds, tl, post, ?_, hkw, hws, hds, hdig, hv, hcase⟩
  conv_lhs => rw [← List.take_append_drop i l]
  rw [hdec, hrest]

theorem issuePattern_of_capture (l v : List Char) (h : IssueCapture l v) :
    IssuePatternIn l := by
  obtain ⟨pre, kw, ws, ds, tl, post, hdec, hkw, hws, hds, hdig, _, _⟩ := h
  exact ⟨pre, kw, ws, ds, tl ++ post, hdec, hkw, hws, hds, hdig⟩

theorem searchIss_of_pattern (l : List Char) (h : IssuePatternIn l) :
    (searchIss l).isSome = true := by
  obtain ⟨pre, kw, ws, ds, post, hdec, hkw, hws, hne, hdig⟩ := h
  apply searchIss_isSome_of l pre.length
  rw [hdec, List.drop_left]
  exact matchIssAt_parts kw ws ds post hkw hws hne hdig

/-- C7: after meta-info derivation, `meta_volume` is present exactly when the
title contains, case-insensitively, "Volume" followed by optional whitespace
and one-or-more digits, and then holds the captured digit run; `meta_issue`
is present exactly when the title contains "Number" or "Issue" followed by
optional whitespace and a digit run optionally extended by a hyphen and more
digits, and then holds the captured string; an unmatched pattern leaves the
corresponding key absent rather than bound to a default. -/
theorem meta_info_characterization (gjt : String → String → String)
    (top : String) (a b : Dict) (t : String)
    (h : setMetaInfo gjt top a = .ok b)
    (ht : dictGet? a "title" = some (.s t))
    (hv0 : dictContains a "meta_volume" = false)
    (hi0 : dictContains a "meta_issue" = false) :
    (dictContains b "meta_volume" = true ↔ VolumePatternIn t.toList) ∧
    (∀ w, dictGet? b "meta_volume" = some w →
      ∃ s, w = .s s ∧ VolumeCapture t.toList s.toList) ∧
    (dictContains b "meta_issue" = true ↔ IssuePatternIn t.toList) ∧
    (∀ w, dictGet? b "meta_issue" = some w →
      ∃ s, w = .s s ∧ IssueCapture t.toList s.toList) := by
  obtain ⟨title, ht2, hb⟩ := setMetaInfo_elim gjt top a b h
  have htt : title = t := Attr.s.inj (Option.some.inj (ht2.symm.trans ht))
  subst htt
  have hAv : dictContains (dictSet a "meta_journal_title" (.s (gjt top title)))
      "meta_volume" = false := by
    rw [dictContains_set_ne _ _ _ _ (by decide)]
    exact hv0
  have hAi : dictContains (dictSet a "meta_journal_title" (.s (gjt top title)))
      "meta_issue" = false := by
    rw [dictContains_set_ne _ _ _ _ (by decide)]
    exact hi0
  cases hsv : searchVol title.toList with
  | none =>
    have hsvS : searchVolS title = none := by
      unfold searchVolS
      rw [hsv]
      rfl
    have hnv : ¬ VolumePatternIn title.toList := by
      intro hp
      have hq := searchVol_of_pattern _ hp
      rw [hsv] at hq
      exact absurd hq (by decide)
    cases hsi : searchIss title.toList with
    | none =>
      have hsiS : searchIssS title = none := by
        unfold searchIssS
        rw [hsi]
        rfl
      have hni : ¬ IssuePatternIn title.toList := by
        intro hp
        have hq := searchIss_of_pattern _ hp
        rw [hsi] at hq
        exact absurd hq (by decide)
      rw [hsvS, hsiS] at hb
      subst hb
      refine ⟨?_, ?_, ?_, ?_⟩
      · rw [hAv]
        exact ⟨fun hh => absurd hh (by decide), fun hp => absurd hp hnv⟩
      · intro w hw
        rw [dictGet?_eq_none_of_not_contains _ _ hAv] at hw
        exact Option.noConfusion hw
      · rw [hAi]
        exact ⟨fun hh => absurd hh (by decide), fun hp => absurd hp hni⟩
      · intro w hw
        rw [dictGet?_eq_none_of_not_contains _ _ hAi] at hw
        exact Option.noConfusion hw
    | some li =>
      have hsiS : searchIssS title = some (String.mk li) := by
        unfold searchIssS
        rw [hsi]
        rfl
      have hcap : IssueCapture title.toList li := searchIss_capture _ li hsi
      rw [hsvS, hsiS] at hb
      subst hb
      refine ⟨?_, ?_, ?_, ?_⟩
      · rw [dictContains_set_ne _ _ _ _ (by decide), hAv]
        exact ⟨fun hh => absurd hh (by decide), fun hp => absurd hp hnv⟩
      · intro w hw
        rw [dictGet?_set_ne _ _ _ _ (by decide),
          dictGet?_eq_none_of_not_contains _ _ hAv] at hw
        exact Option.noConfusion hw
      · rw [dictContains_set_self]
        exact ⟨fun _ => issuePattern_of_capture _ li hcap, fun _ => rfl⟩
      · intro w hw
        rw [dictGet?_set_self] at hw
        exact ⟨String.mk li, (Option.some.inj hw).symm, hcap⟩
  | some lv =>
    have hsvS : searchVolS title = some (String.mk lv) := by
      unfold searchVolS
      rw [hsv]
      rfl
    have hcapv : VolumeCapture title.toList lv := searchVol_capture _ lv hsv
    cases hsi : searchIss title.toList with
    | none =>
      have hsiS : searchIssS title = none := by
        unfold searchIssS
        rw [hsi]
        rfl
      have hni : ¬ IssuePatternIn title.toList := by
        intro hp
        have hq := searchIss_of_pattern _ hp
        rw [hsi] at hq
        exact absurd hq (by decide)
      rw [hsvS, hsiS] at hb
      subst hb
      refine ⟨?_, ?_, ?_, ?_⟩
      · rw [dictContains_set_self]
        exact ⟨fun _ => volumePattern_of_capture _ lv hcapv, fun _ => rfl⟩
      · intro w hw
        rw [dictGet?_set_self] at hw
        exact ⟨String.mk lv, (Option.some.inj hw).symm, hcapv⟩
      · rw [dictContains_set_ne _ _ _ _ (by decide), hAi]
        exact ⟨fun hh => absurd hh (by decide), fun hp => absurd hp hni⟩
      · intro w hw
        rw [dictGet?_set_ne _ _ _ _ (by decide),
          dictGet?_eq_none_of_not_contains _ _ hAi] at hw
        exact Option.noConfusion hw
    | some li =>
      have hsiS : searchIssS title = some (String.mk li) := by
        unfold searchIssS
        rw [hsi]
        rfl
      have hcapi : IssueCapture title.toList li := searchIss_capture _ li hsi
      rw [hsvS, hsiS] at hb
      subst hb
      refine ⟨?_, ?_, ?_, ?_⟩
      · rw [dictContains_set_ne _ _ _ _ (by decide), dictContains_set_self]
        exact ⟨fun _ => volumePattern_of_capture _ lv hcapv, fun _ => rfl⟩
      · intro w hw
        rw [dictGet?_set_ne _ _ _ _ (by decide), dictGet?_set_self] at hw
        exact ⟨String.mk lv, (Option.some.inj hw).symm, hcapv⟩
      · rw [dictContains_set_self]
        exact ⟨fun _ => issuePattern_of_capture _ li hcapi, fun _ => rfl⟩
      · intro w hw
        rw [dictGet?_set_self] at hw
        exact ⟨String.mk li, (Option.some.inj hw).symm, hcapi⟩

/-- Witness for C7 at a concrete title containing both patterns. -/
theorem meta_info_characterization_witness :
    (dictContains
        [("title", Attr.s "Journal, Volume 3, Issue 12-13"),
         ("meta_journal_title", Attr.s "Journal, Volume 3, Issue 12-13"),
         ("meta_volume", Attr.s "3"),
         ("meta_issue", Attr.s "12-13")] "meta_volume" = true ↔
      VolumePatternIn ("Journal, Volume 3, Issue 12-13" : String).toList) ∧
    (∀ w, dictGet?
        [("title", Attr.s "Journal, Volume 3, Issue 12-13"),
         ("meta_journal_title", Attr.s "Journal, Volume 3, Issue 12-13"),
         ("meta_volume", Attr.s "3"),
         ("meta_issue", Attr.s "12-13")] "meta_volume" = some w →
      ∃ s, w = .s s ∧
        VolumeCapture ("Journal, Volume 3, Issue 12-13" : String).toList
          s.toList) ∧
    (dictContains
        [("title", Attr.s "Journal, Volume 3, Issue 12-13"),
         ("meta_journal_title", Attr.s "Journal, Volume 3, Issue 12-13"),
         ("meta_volume", Attr.s "3"),
         ("meta_issue", Attr.s "12-13")] "meta_issue" = true ↔
      IssuePatternIn ("Journal, Volume 3, Issue 12-13" : String).toList) ∧
    (∀ w, dictGet?
        [("title", Attr.s "Journal, Volume 3, Issue 12-13"),
         ("meta_journal_title", Attr.s "Journal, Volume 3, Issue 12-13"),
         ("meta_volume", Attr.s "3"),
         ("meta_issue", Attr.s "12-13")] "meta_issue" = some w →
      ∃ s, w = .s s ∧
        IssueCapture ("Journal, Volume 3, Issue 12-13" : String).toList
          s.toList) :=
  meta_info_characterization (fun _ t => t) "J42"
    [("title", .s "Journal, Volume 3, Issue 12-13")] _
    "Journal, Volume 3, Issue 12-13" (by decide) (by decide) (by decide)
    (by decide)
